import Mathlib

/-!
Verification of the multireadseeker package: an ordered sequence of
readable/seekable/closable sources presented as one logical seekable stream.

Two implementations live in multireadseeker.go and are embedded here:

* the `MultiReadSeeker` struct with its `Initialize` constructor and `Close`
  (lines 40-108).  A child is modelled by its size (the value its
  seek-to-end returns); in-memory children never fail to seek, and the
  outcome of closing child `i` is supplied as a function `Nat → Option String`.
* the `ConcatFile` implementation (lines 110-407) with `Open`, `Read`,
  `goToNextFile`, `Seek` and `findSeekIndex`.  A file is modelled by its
  list of bytes; `os.Open`/`Seek`/`Read` on such in-memory files behave as
  the OS calls do (reads return the available bytes, seeking to a negative
  local position fails, seeking past the end succeeds).  The single open
  file handle is modelled by the `current_file_num` index together with the
  handle's own cursor `fh_pos`; every `fh.Close()` performed during an
  operation is recorded in a `closed` log so that close side effects can be
  stated.

Machine integers (int64 / int) are modelled by `Int`: no quantity here
approaches the 64-bit range, so overflow does not matter.
-/

/-- The error kinds returned by the package, one constructor per distinct
error site of the source. -/
inductive Err where
  | configurationError
  | invalidArgument
  | sourceError
  | unexpectedEOF
  | eof
deriving DecidableEq

/-- WHENCE_START = 0 (multireadseeker.go line 17). -/
def WHENCE_START : Int := 0

/-- WHENCE_CURRENT = 1 (line 18). -/
def WHENCE_CURRENT : Int := 1

/-- WHENCE_END = 2 (line 19). -/
def WHENCE_END : Int := 2

/-- WHENCE_ORIGIN = 0, the name the ConcatFile section uses (line 281). -/
def WHENCE_ORIGIN : Int := 0

/-- The MultiReadSeeker struct (lines 40-51); each child is modelled by its
size, the value returned by seeking it to its end. -/
structure MultiReadSeeker where
  children : List Nat
  superPosStart : List Int
  superPosEnd : List Int
  currentSeekerNum : Nat
  currentSuperPos : Int
deriving DecidableEq

/-- Outcome of the MultiReadSeeker constructor: the Go code panics on an
empty child list, returns a wrapped error when a child seek fails (which the
in-memory children never do), and otherwise yields the initialized struct. -/
inductive InitResult where
  | panicked (msg : String)
  | errored (msg : String)
  | ok (s : MultiReadSeeker)
deriving DecidableEq

/-- The boundary-survey loop of Initialize (lines 76-93): for each child the
code records superPosEnd[i] = endPos, the child's own seek-to-end result
(its size), and superPosStart[i] = superPosEnd[i-1] + 1 for i > 0 (0 for
i = 0).  Returns the list of (superPosStart[i], superPosEnd[i]) pairs; the
argument `start` is the start offset of the first remaining child. -/
def surveyBounds : List Nat → Int → List (Int × Int)
  | [], _ => []
  | sz :: rest, start => (start, (sz : Int)) :: surveyBounds rest ((sz : Int) + 1)

/-- MultiReadSeeker.Initialize (lines 64-95).  On an empty child list the
code panics; otherwise it surveys each child once and starts addressing
child 0 at logical position 0. -/
def MultiReadSeeker.Initialize (children : List Nat) : InitResult :=
  if children.length = 0 then
    .panicked "MultiReadSeeker needs at least one child"
  else
    .ok { children := children
          superPosStart := (surveyBounds children 0).map Prod.fst
          superPosEnd := (surveyBounds children 0).map Prod.snd
          currentSeekerNum := 0
          currentSuperPos := 0 }

/-- The loop of MultiReadSeeker.Close (lines 99-105): every child is closed
in order; each failure is wrapped with its child index and appended to the
error set.  Returns (indices closed, accumulated wrapped errors);
`outcome i` is what closing child `i` returns. -/
def closeLoop (outcome : Nat → Option String) : List Nat → Nat → List Nat × List (Nat × String)
  | [], _ => ([], [])
  | _ :: rest, i =>
    let r := closeLoop outcome rest (i + 1)
    (i :: r.1,
      match outcome i with
      | some m => (i, m) :: r.2
      | none => r.2)

/-- MultiReadSeeker.Close (lines 97-108).  The method reads only
self.children and writes no field, so the state it leaves behind is the
struct unchanged (first component); errset.ErrSet.ReturnValue yields nil
exactly when no error was collected. -/
def MultiReadSeeker.Close (s : MultiReadSeeker) (outcome : Nat → Option String) :
    MultiReadSeeker × List Nat × Option (List (Nat × String)) :=
  let r := closeLoop outcome s.children 0
  (s, r.1, if r.2.isEmpty then none else some r.2)

/-- The ConcatFile struct (lines 112-141).  `files` holds the contents of
the named files; `fh_pos` is the cursor of the currently open handle
(`current_file_num` says which file it is). -/
structure ConcatFile where
  currently_open : Bool
  files : List (List Nat)
  num_files : Nat
  current_file_num : Nat
  fh_pos : Int
  super_pos : Int
  super_size : Int
  super_pos_start : List Int
  super_pos_end : List Int
deriving DecidableEq

/-- The sizes of a list of files. -/
def sizesOf (files : List (List Nat)) : List Nat := files.map fun f => f.length

/-- The boundary loop of ConcatFile.Open (lines 166-188): super_pos_start[0]
is 0, super_pos_start[i] = super_pos_end[i-1] + 1 for i > 0, and
super_pos_end[i] = super_pos_start[i] + size_i - 1.  The argument `start` is
the start offset of the first remaining file; since end + 1 = start + size,
the recursion passes start + size. -/
def concatBounds : List Nat → Int → List (Int × Int)
  | [], _ => []
  | sz :: rest, start => (start, start + (sz : Int) - 1) :: concatBounds rest (start + (sz : Int))

/-- The start offsets of the boundary survey over `files` beginning at
`base`: the first components of concatBounds. -/
def startsOf (files : List (List Nat)) (base : Int) : List Int :=
  (concatBounds (sizesOf files) base).map Prod.fst

/-- The end offsets of the boundary survey over `files` beginning at `base`:
the second components of concatBounds. -/
def endsOf (files : List (List Nat)) (base : Int) : List Int :=
  (concatBounds (sizesOf files) base).map Prod.snd

/-- ConcatFile Open (lines 147-201): rejects an empty name list with an
error, surveys every file, sets super_size = super_pos_end[num_files-1] + 1
and opens the first file at position 0. -/
def ConcatFile.Open (files : List (List Nat)) : Except Err ConcatFile :=
  if files.length = 0 then .error .configurationError
  else
    .ok { currently_open := true
          files := files
          num_files := files.length
          current_file_num := 0
          fh_pos := 0
          super_pos := 0
          super_size :=
            ((concatBounds (sizesOf files) 0).map Prod.snd).getD (files.length - 1) 0 + 1
          super_pos_start := (concatBounds (sizesOf files) 0).map Prod.fst
          super_pos_end := (concatBounds (sizesOf files) 0).map Prod.snd }

/-- ConcatFile.Close (lines 206-213): when the stream is open it closes the
one currently open handle and marks the stream closed, otherwise it does
nothing; either way it returns nil. -/
def ConcatFile.Close (cf : ConcatFile) : Option Err × ConcatFile × List Nat :=
  if cf.currently_open then (none, { cf with currently_open := false }, [cf.current_file_num])
  else (none, cf, [])

/-- The bytes an fh.Read obtains from `file` at handle position `pos` with a
buffer of length `L`. -/
def fhRead (file : List Nat) (pos : Int) (L : Nat) : List Nat :=
  if pos < 0 then [] else (file.drop pos.toNat).take L

/-- The error an fh.Read reports: io.EOF exactly when a nonempty buffer
obtains zero bytes. -/
def fhReadErr (file : List Nat) (pos : Int) (L : Nat) : Option Err :=
  if 0 < L ∧ (fhRead file pos L).length = 0 then some .eof else none

/-- ConcatFile.goToNextFile (lines 264-278): when a further file exists the
current handle is closed (its index is logged), the next file is opened at
position 0 and the index advances; otherwise nothing happens. -/
def ConcatFile.goToNextFile (cf : ConcatFile) : Bool × ConcatFile × List Nat :=
  if cf.current_file_num < cf.num_files - 1 then
    (true, { cf with current_file_num := cf.current_file_num + 1, fh_pos := 0 }, [cf.current_file_num])
  else
    (false, cf, [])

/-- The outcome of a ConcatFile.Read: the bytes placed in the buffer, the
returned error, the stream afterwards, and the indices of the file handles
closed during the call. -/
structure ReadResult where
  data : List Nat
  err : Option Err
  state : ConcatFile
  closed : List Nat
deriving DecidableEq

/-- ConcatFile.Read (lines 220-258): read from the current handle, advance
super_pos by the bytes obtained; on a short read move to the next file (when
one exists) and recurse on the rest of the buffer; with no next file return
the partial count, or io.EOF when nothing at all was obtained. -/
def ConcatFile.Read (cf : ConcatFile) (L : Nat) : ReadResult :=
  if cf.currently_open = false then
    ⟨[], some .unexpectedEOF, cf, []⟩
  else
    let data := fhRead (cf.files.getD cf.current_file_num []) cf.fh_pos L
    let n := data.length
    let err := fhReadErr (cf.files.getD cf.current_file_num []) cf.fh_pos L
    let cf1 : ConcatFile :=
      { cf with super_pos := cf.super_pos + (n : Int), fh_pos := cf.fh_pos + (n : Int) }
    if n = L then
      ⟨data, err, cf1, []⟩
    else if hInc : cf1.goToNextFile.1 = true then
      let sub := ConcatFile.Read cf1.goToNextFile.2.1 (L - n)
      ⟨data ++ sub.data, sub.err, sub.state, cf1.goToNextFile.2.2 ++ sub.closed⟩
    else if 0 < n then
      ⟨data, err, cf1, []⟩
    else
      ⟨data, some .eof, cf1, []⟩
termination_by cf.num_files - cf.current_file_num
decreasing_by
  simp only [ConcatFile.goToNextFile] at hInc ⊢
  split at hInc
  · next h => simp_all; omega
  · simp_all

/-- The sentinel findSeekIndex returns when no file contains the position
(line 372). -/
def seekImpossible : Int := -1

/-- The loop of findSeekIndex (lines 385-390): return the first index i with
super_pos_start[i] <= p <= super_pos_end[i]; `i` is the index of the first
remaining entry. -/
def findSeekAux : List Int → List Int → Int → Nat → Int
  | st :: sts, en :: ens, p, i =>
    if st ≤ p ∧ p ≤ en then (i : Int) else findSeekAux sts ens p (i + 1)
  | _, _, _, _ => seekImpossible

/-- ConcatFile.findSeekIndex (lines 377-394). -/
def ConcatFile.findSeekIndex (cf : ConcatFile) (new_super_pos : Int) : Int :=
  if new_super_pos < 0 then seekImpossible
  else findSeekAux cf.super_pos_start cf.super_pos_end new_super_pos 0

/-- The clamp of Seek (lines 330-339): an unresolved index becomes the first
file for WHENCE_END and the last file otherwise. -/
def clampSeekIndex (seek_index : Int) (whence : Int) (num_files : Nat) : Int :=
  if seek_index = seekImpossible then
    if whence = WHENCE_END then 0 else (num_files : Int) - 1
  else seek_index

/-- The outcome of a ConcatFile.Seek: the returned position, error, the
stream afterwards, and the handles closed during the call. -/
structure SeekResult where
  ret : Int
  err : Option Err
  state : ConcatFile
  closed : List Nat
deriving DecidableEq

/-- The local seek of Seek (lines 359-368): position the open handle at
new_super_pos - super_pos_start[j].  The OS rejects a negative target (the
handle reports position 0 and the stream is marked closed, lines 362-366);
any non-negative target, even past the file's end, succeeds. -/
def ConcatFile.seekLocal (cf : ConcatFile) (new_super_pos : Int) (j : Nat)
    (closedLog : List Nat) : SeekResult :=
  let offset := new_super_pos - cf.super_pos_start.getD j 0
  if offset < 0 then
    let cf2 := { cf with currently_open := false, super_pos := cf.super_pos_start.getD j 0 + 0 }
    ⟨cf2.super_pos, some .sourceError, cf2, closedLog⟩
  else
    ⟨new_super_pos, none, { cf with fh_pos := offset, super_pos := new_super_pos }, closedLog⟩

/-- The tail of Seek common to all origins (lines 330-368): clamp the
resolved index, switch files when it differs from the current one (closing
the current handle, logging its index, and opening the target at position
0), then seek locally. -/
def ConcatFile.seekResolve (cf : ConcatFile) (new_super_pos : Int) (seek_index0 : Int)
    (whence : Int) : SeekResult :=
  let seek_index := clampSeekIndex seek_index0 whence cf.num_files
  if seek_index ≠ (cf.current_file_num : Int) then
    ConcatFile.seekLocal { cf with current_file_num := seek_index.toNat, fh_pos := 0 }
      new_super_pos seek_index.toNat [cf.current_file_num]
  else
    ConcatFile.seekLocal cf new_super_pos seek_index.toNat []

/-- ConcatFile.Seek (lines 291-369). -/
def ConcatFile.Seek (cf : ConcatFile) (offset : Int) (whence : Int) : SeekResult :=
  if whence = WHENCE_ORIGIN then
    ConcatFile.seekResolve cf offset (if offset = 0 then 0 else cf.findSeekIndex offset) whence
  else if whence = WHENCE_CURRENT then
    if offset = 0 then ⟨cf.super_pos, none, cf, []⟩
    else
      ConcatFile.seekResolve cf (cf.super_pos + offset)
        (cf.findSeekIndex (cf.super_pos + offset)) whence
  else if whence = WHENCE_END then
    if 0 < offset then ⟨cf.super_pos, some .invalidArgument, cf, []⟩
    else
      ConcatFile.seekResolve cf (cf.super_size + offset)
        (cf.findSeekIndex (cf.super_size + offset)) whence
  else
    ⟨cf.super_pos, some .invalidArgument, cf, []⟩

/-- Well-formed ConcatFile states over the file contents `contents`: the
states ConcatFile.Open produces and every state Read and successful Seek
keep reachable.  The boundary table is the one the Open survey computes and
super_size is the total number of bytes. -/
def WF (cf : ConcatFile) (contents : List (List Nat)) : Prop :=
  cf.currently_open = true ∧
  cf.files = contents ∧
  contents ≠ [] ∧
  cf.num_files = contents.length ∧
  cf.current_file_num < cf.num_files ∧
  0 ≤ cf.fh_pos ∧
  cf.super_pos_start = startsOf contents 0 ∧
  cf.super_pos_end = endsOf contents 0 ∧
  cf.super_size = (contents.flatten.length : Int)

instance (cf : ConcatFile) (contents : List (List Nat)) : Decidable (WF cf contents) := by
  unfold WF
  infer_instance

/-- The logical start offset of file `j` when the files before it begin at
`base`. -/
def startIdx : List (List Nat) → Int → Nat → Int
  | _, base, 0 => base
  | [], base, _ + 1 => base
  | f :: fs, base, j + 1 => startIdx fs (base + (f.length : Int)) j

/-- The stream ConcatFile.Open yields on files of contents 10 20 / 30. -/
def cfC2w : ConcatFile :=
  { currently_open := true, files := [[10, 20], [30]], num_files := 2, current_file_num := 0,
    fh_pos := 0, super_pos := 0, super_size := 3,
    super_pos_start := [0, 2], super_pos_end := [1, 2] }

/-- The stream ConcatFile.Open yields on files of contents 1 2 / 3 4. -/
def cfC3w : ConcatFile :=
  { currently_open := true, files := [[1, 2], [3, 4]], num_files := 2, current_file_num := 0,
    fh_pos := 0, super_pos := 0, super_size := 4,
    super_pos_start := [0, 2], super_pos_end := [1, 3] }

/-- The stream ConcatFile.Open yields on files of contents 7 / 8 9. -/
def cfC5w : ConcatFile :=
  { currently_open := true, files := [[7], [8, 9]], num_files := 2, current_file_num := 0,
    fh_pos := 0, super_pos := 0, super_size := 3,
    super_pos_start := [0, 1], super_pos_end := [0, 2] }

/-- The stream ConcatFile.Open yields on files of contents 1 2 / 3 4. -/
def cfC6x : ConcatFile :=
  { currently_open := true, files := [[1, 2], [3, 4]], num_files := 2, current_file_num := 0,
    fh_pos := 0, super_pos := 0, super_size := 4,
    super_pos_start := [0, 2], super_pos_end := [1, 3] }

/-- The stream ConcatFile.Open yields on files of contents 4 5 / 6. -/
def cfC6w : ConcatFile :=
  { currently_open := true, files := [[4, 5], [6]], num_files := 2, current_file_num := 0,
    fh_pos := 0, super_pos := 0, super_size := 3,
    super_pos_start := [0, 2], super_pos_end := [1, 2] }

/-- The stream ConcatFile.Open yields on files of contents 1 / 2. -/
def cfC7w : ConcatFile :=
  { currently_open := true, files := [[1], [2]], num_files := 2, current_file_num := 0,
    fh_pos := 0, super_pos := 0, super_size := 2,
    super_pos_start := [0, 1], super_pos_end := [0, 1] }

/-- The stream ConcatFile.Open yields on files of contents 1 2 / 3 4. -/
def cfC7x : ConcatFile :=
  { currently_open := true, files := [[1, 2], [3, 4]], num_files := 2, current_file_num := 0,
    fh_pos := 0, super_pos := 0, super_size := 4,
    super_pos_start := [0, 2], super_pos_end := [1, 3] }

/-- The stream ConcatFile.Open yields on files of contents 1 2 / (empty) / 3. -/
def cfC9x : ConcatFile :=
  { currently_open := true, files := [[1, 2], [], [3]], num_files := 3, current_file_num := 0,
    fh_pos := 0, super_pos := 0, super_size := 3,
    super_pos_start := [0, 2, 2], super_pos_end := [1, 1, 2] }

/-- The stream ConcatFile.Open yields on files of contents 1 / (empty) / 2 3. -/
def cfC9w : ConcatFile :=
  { currently_open := true, files := [[1], [], [2, 3]], num_files := 3, current_file_num := 0,
    fh_pos := 0, super_pos := 0, super_size := 3,
    super_pos_start := [0, 1, 1], super_pos_end := [0, 0, 2] }

/-!  Theorems.  First the helper lemmas shared between claims, then one
theorem (with witness or counterexample where called for) per claim. -/

lemma closeLoop_fst (outcome : Nat → Option String) :
    ∀ (cs : List Nat) (i : Nat), (closeLoop outcome cs i).1 = List.range' i cs.length := by
  intro cs
  induction cs with
  | nil => intro i; simp [closeLoop]
  | cons c rest ih =>
    intro i
    show i :: (closeLoop outcome rest (i + 1)).1 = List.range' i (c :: rest).length
    rw [List.length_cons, List.range'_succ, ih (i + 1)]

lemma closeLoop_snd_nil (outcome : Nat → Option String) :
    ∀ (cs : List Nat) (i : Nat),
      (closeLoop outcome cs i).2 = [] ↔ ∀ j, i ≤ j → j < i + cs.length → outcome j = none := by
  intro cs
  induction cs with
  | nil =>
    intro i
    simp only [closeLoop, List.length_nil, Nat.add_zero]
    constructor
    · intro _ j h1 h2; omega
    · intro _; trivial
  | cons c rest ih =>
    intro i
    simp only [closeLoop, List.length_cons]
    cases h : outcome i with
    | some m =>
      simp only [h]
      constructor
      · intro hk; exact absurd hk (by simp)
      · intro hall
        have := hall i (le_refl i) (by omega)
        rw [h] at this; exact absurd this (by simp)
    | none =>
      simp only [h]
      rw [ih (i + 1)]
      constructor
      · intro hall j h1 h2
        rcases Nat.eq_or_lt_of_le h1 with rfl | hlt
        · exact h
        · exact hall j hlt (by omega)
      · intro hall j h1 h2
        exact hall j (by omega) (by omega)

lemma closeLoop_snd_mem (outcome : Nat → Option String) :
    ∀ (cs : List Nat) (i j : Nat) (m : String), i ≤ j → j < i + cs.length →
      outcome j = some m → (j, m) ∈ (closeLoop outcome cs i).2 := by
  intro cs
  induction cs with
  | nil => intro i j m h1 h2; simp only [List.length_nil] at h2; omega
  | cons c rest ih =>
    intro i j m h1 h2 hm
    simp only [List.length_cons] at h2
    simp only [closeLoop]
    rcases Nat.eq_or_lt_of_le h1 with rfl | hlt
    · rw [hm]; exact List.mem_cons_self _ _
    · have hmem := ih (i + 1) j m hlt (by omega) hm
      cases houtcome : outcome i with
      | some m2 => exact List.mem_cons_of_mem _ hmem
      | none => exact hmem

/-- C8: MultiReadSeeker.Close invokes close on every underlying source even
when some closes fail (the list of closed indices is always the full index
range), collects every individual failure into the aggregate error (every
failing index appears, with its message, in the returned list), and returns
no error exactly when all underlying closes succeeded. -/
theorem C8_close_all_aggregate (s : MultiReadSeeker) (outcome : Nat → Option String) :
    (s.Close outcome).2.1 = List.range s.children.length ∧
    ((s.Close outcome).2.2 = none ↔ ∀ i, i < s.children.length → outcome i = none) ∧
    (∀ i m, i < s.children.length → outcome i = some m →
      ∃ l, (s.Close outcome).2.2 = some l ∧ (i, m) ∈ l) := by
  refine ⟨?_, ?_, ?_⟩
  · show (closeLoop outcome s.children 0).1 = _
    rw [closeLoop_fst, List.range_eq_range']
  · show (if (closeLoop outcome s.children 0).2.isEmpty then none
          else some (closeLoop outcome s.children 0).2) = none ↔ _
    rcases h : (closeLoop outcome s.children 0).2 with _ | ⟨p, t⟩
    · simp only [List.isEmpty_nil, if_true]
      have := (closeLoop_snd_nil outcome s.children 0).mp h
      constructor
      · intro _ i hi; exact this i (Nat.zero_le i) (by omega)
      · intro _; trivial
    · simp only [List.isEmpty_cons, if_false]
      constructor
      · intro hc; exact absurd hc (by simp)
      · intro hall
        have : (closeLoop outcome s.children 0).2 = [] :=
          (closeLoop_snd_nil outcome s.children 0).mpr
            (fun j _ hj => hall j (by omega))
        rw [h] at this; exact absurd this (by simp)
  · intro i m hi hm
    have hmem := closeLoop_snd_mem outcome s.children 0 i m (Nat.zero_le i) (by omega) hm
    refine ⟨(closeLoop outcome s.children 0).2, ?_, hmem⟩
    show (if (closeLoop outcome s.children 0).2.isEmpty then none
          else some (closeLoop outcome s.children 0).2) = _
    rcases h : (closeLoop outcome s.children 0).2 with _ | ⟨p, t⟩
    · rw [h] at hmem; exact absurd hmem (by simp)
    · simp

/-- C10: Close keeps no closed flag: the method leaves the struct unchanged,
and a second (or any later) Close call again invokes close on every
underlying source and returns whatever the repeated underlying closes
produce (no error exactly when the repeated closes all succeed). -/
theorem C10_close_unguarded (s : MultiReadSeeker) (o1 o2 : Nat → Option String) :
    (s.Close o1).1 = s ∧
    ((s.Close o1).1.Close o2).2.1 = List.range s.children.length ∧
    (((s.Close o1).1.Close o2).2.2 = none ↔ ∀ i, i < s.children.length → o2 i = none) := by
  refine ⟨rfl, ?_, ?_⟩
  · show (closeLoop o2 s.children 0).1 = _
    rw [closeLoop_fst, List.range_eq_range']
  · show (if (closeLoop o2 s.children 0).2.isEmpty then none
          else some (closeLoop o2 s.children 0).2) = none ↔ _
    rcases h : (closeLoop o2 s.children 0).2 with _ | ⟨p, t⟩
    · simp only [List.isEmpty_nil, if_true]
      have := (closeLoop_snd_nil o2 s.children 0).mp h
      constructor
      · intro _ i hi; exact this i (Nat.zero_le i) (by omega)
      · intro _; trivial
    · simp only [List.isEmpty_cons, if_false]
      constructor
      · intro hc; exact absurd hc (by simp)
      · intro hall
        have : (closeLoop o2 s.children 0).2 = [] :=
          (closeLoop_snd_nil o2 s.children 0).mpr (fun j _ hj => hall j (by omega))
        rw [h] at this; exact absurd this (by simp)

/-- C1: the claimed boundary-table invariant (endOffset[i] = startOffset[i] +
s_i - 1, totalSize = sum of sizes) is what the spec, the struct comment at
lines 44-47 and the parallel ConcatFile.Open survey all state, but
MultiReadSeeker.Initialize stores each child's raw seek-to-end result as
superPosEnd[i] without adding superPosStart[i]: for a single 1-byte child it
yields startOffset [0] and endOffset [1] (the comment requires them equal),
and for sizes 5, 3 it yields startOffsets [0, 6] and endOffsets [5, 3], so
endOffset[0] is 5 rather than 4, endOffset[1] + 1 is 4 rather than the size
sum 8, and the second range is inverted (start 6 above end 3). -/
theorem C1_survey_bounds_eval :
    MultiReadSeeker.Initialize [1] =
      .ok { children := [1], superPosStart := [0], superPosEnd := [1],
            currentSeekerNum := 0, currentSuperPos := 0 } ∧
    MultiReadSeeker.Initialize [5, 3] =
      .ok { children := [5, 3], superPosStart := [0, 6], superPosEnd := [5, 3],
            currentSeekerNum := 0, currentSuperPos := 0 } ∧
    ¬ ((1 : Int) = 0 + (1 : Int) - 1) ∧
    ¬ ((3 : Int) + 1 = (5 : Int) + 3) ∧
    ¬ ((6 : Int) ≤ 3) := by
  refine ⟨rfl, rfl, by decide, by decide, by decide⟩

/-- C4 counterexample: constructing a MultiReadSeeker from an empty
collection does not return an error result: Initialize panics. -/
theorem C4_counterexample :
    MultiReadSeeker.Initialize [] = .panicked "MultiReadSeeker needs at least one child" := rfl

/-- C4 (amended): constructing via ConcatFile.Open from an empty collection
returns a configuration error to the caller, while the MultiReadSeeker
constructor (New/Initialize) panics on an empty child list instead of
returning an error. -/
theorem C4_empty_construction :
    ConcatFile.Open [] = .error .configurationError ∧
    MultiReadSeeker.Initialize [] = .panicked "MultiReadSeeker needs at least one child" :=
  ⟨rfl, rfl⟩

/-- C6 counterexample: on the stream over files 1 2 / 3 4 (total size 4,
last byte at 3, last source index 1), Seek(0, end) produces the candidate
position 4, which is beyond every source's range, yet the seek succeeds and
resolves to source 0 (the first), not the last. -/
theorem C6_counterexample :
    ConcatFile.Open [[1, 2], [3, 4]] = .ok cfC6x ∧
    cfC6x.super_pos_end.getD 1 0 = 3 ∧
    cfC6x.findSeekIndex (cfC6x.super_size + 0) = seekImpossible ∧
    (cfC6x.Seek 0 WHENCE_END).err = none ∧
    (cfC6x.Seek 0 WHENCE_END).state.current_file_num = 0 ∧
    (cfC6x.Seek 0 WHENCE_END).state.current_file_num ≠ cfC6x.num_files - 1 := by
  refine ⟨rfl, by decide, by decide, by decide, by decide, by decide⟩

/-- C7 (amended): during a boundary-crossing Read the exhausted source IS
closed: whenever a further file exists, goToNextFile closes the current file
handle (logging its index), advances the current-file index to the next
file, and reopens at local position 0. -/
theorem C7_goToNextFile_closes (cf : ConcatFile) (h : cf.current_file_num < cf.num_files - 1) :
    cf.goToNextFile =
      (true, { cf with current_file_num := cf.current_file_num + 1, fh_pos := 0 },
        [cf.current_file_num]) := by
  simp [ConcatFile.goToNextFile, h]

/-- C7 witness: the amended statement applied to the concrete stream over
files 1 / 2 positioned at file 0. -/
theorem C7_witness :
    cfC7w.current_file_num < cfC7w.num_files - 1 ∧
    cfC7w.goToNextFile =
      (true, { cfC7w with current_file_num := cfC7w.current_file_num + 1, fh_pos := 0 },
        [cfC7w.current_file_num]) :=
  ⟨by decide, C7_goToNextFile_closes cfC7w (by decide)⟩

/-- C9 counterexample: in the table ConcatFile.Open builds for files
1 2 / (empty) / 3, the zero-length source 1 has start offset 2 and end
offset 1: its start and end offsets do not coincide. -/
theorem C9_counterexample :
    ConcatFile.Open [[1, 2], [], [3]] = .ok cfC9x ∧
    (cfC9x.files.getD 1 []).length = 0 ∧
    cfC9x.super_pos_start.getD 1 0 = 2 ∧
    cfC9x.super_pos_end.getD 1 0 = 1 ∧
    cfC9x.super_pos_start.getD 1 0 ≠ cfC9x.super_pos_end.getD 1 0 := by
  refine ⟨rfl, by decide, by decide, by decide, by decide⟩

lemma startsOf_cons (f : List Nat) (fs : List (List Nat)) (base : Int) :
    startsOf (f :: fs) base = base :: startsOf fs (base + (f.length : Int)) := rfl

lemma endsOf_cons (f : List Nat) (fs : List (List Nat)) (base : Int) :
    endsOf (f :: fs) base
      = (base + (f.length : Int) - 1) :: endsOf fs (base + (f.length : Int)) := rfl

lemma startsOf_getD :
    ∀ (fs : List (List Nat)) (base : Int) (j : Nat), j < fs.length →
      (startsOf fs base).getD j 0 = startIdx fs base j := by
  intro fs
  induction fs with
  | nil => intro base j h; simp at h
  | cons f fs ih =>
    intro base j h
    cases j with
    | zero => rw [startsOf_cons, List.getD_cons_zero]; rfl
    | succ j =>
      rw [startsOf_cons, List.getD_cons_succ]
      show _ = startIdx fs (base + (f.length : Int)) j
      exact ih (base + (f.length : Int)) j (by simpa using h)

lemma endsOf_getD :
    ∀ (fs : List (List Nat)) (base : Int) (j : Nat), j < fs.length →
      (endsOf fs base).getD j 0
        = startIdx fs base j + ((fs.getD j []).length : Int) - 1 := by
  intro fs
  induction fs with
  | nil => intro base j h; simp at h
  | cons f fs ih =>
    intro base j h
    cases j with
    | zero => rw [endsOf_cons, List.getD_cons_zero]; rfl
    | succ j =>
      rw [endsOf_cons, List.getD_cons_succ, List.getD_cons_succ]
      show _ = startIdx fs (base + (f.length : Int)) j + _ - 1
      exact ih (base + (f.length : Int)) j (by simpa using h)

lemma resolve_core :
    ∀ (files : List (List Nat)) (base p : Int) (i0 : Nat),
      base ≤ p → p < base + (files.flatten.length : Int) →
      ∃ j : Nat, j < files.length ∧
        findSeekAux (startsOf files base) (endsOf files base) p i0 = ((i0 + j : Nat) : Int) ∧
        startIdx files base j ≤ p ∧
        p ≤ startIdx files base j + ((files.getD j []).length : Int) - 1 ∧
        (p - startIdx files base j).toNat < (files.getD j []).length ∧
        (files.getD j []).getD (p - startIdx files base j).toNat 0
          = files.flatten.getD (p - base).toNat 0 := by
  intro files
  induction files with
  | nil =>
    intro base p i0 h1 h2
    simp only [List.flatten_nil, List.length_nil, Nat.cast_zero, add_zero] at h2
    exact absurd h1 (by omega)
  | cons f fs ih =>
    intro base p i0 h1 h2
    rw [startsOf_cons, endsOf_cons]
    simp only [findSeekAux]
    by_cases hp : p ≤ base + (f.length : Int) - 1
    · refine ⟨0, by simp, ?_, ?_, ?_, ?_, ?_⟩
      · rw [if_pos ⟨h1, hp⟩, Nat.add_zero]
      · exact h1
      · exact hp
      · show (p - startIdx (f :: fs) base 0).toNat < ((f :: fs).getD 0 []).length
        rw [List.getD_cons_zero]
        show (p - base).toNat < f.length
        omega
      · rw [List.flatten_cons]
        have hlt : (p - base).toNat < f.length := by
          show (p - base).toNat < f.length
          omega
        rw [List.getD_append _ _ _ _ hlt]
        rfl
    · have hge : base + (f.length : Int) ≤ p := by omega
      have h2b : p < (base + (f.length : Int)) + (fs.flatten.length : Int) := by
        rw [List.flatten_cons, List.length_append] at h2
        push_cast at h2
        omega
      obtain ⟨j, hj, hfind, hs1, hs2, hlt, hbyte⟩ := ih (base + (f.length : Int)) p (i0 + 1) hge h2b
      refine ⟨j + 1, by simpa using Nat.succ_lt_succ hj, ?_, ?_, ?_, ?_, ?_⟩
      · rw [if_neg (fun hcond => hp hcond.2), hfind]
        congr 1
        omega
      · exact hs1
      · show p ≤ startIdx fs (base + (f.length : Int)) j + (((f :: fs).getD (j + 1) []).length : Int) - 1
        rw [List.getD_cons_succ]
        exact hs2
      · show (p - startIdx fs (base + (f.length : Int)) j).toNat < ((f :: fs).getD (j + 1) []).length
        rw [List.getD_cons_succ]
        exact hlt
      · show ((f :: fs).getD (j + 1) []).getD (p - startIdx fs (base + (f.length : Int)) j).toNat 0
          = (f :: fs).flatten.getD (p - base).toNat 0
        rw [List.getD_cons_succ, List.flatten_cons]
        have hge2 : f.length ≤ (p - base).toNat := by omega
        rw [List.getD_append_right _ _ _ _ hge2]
        have heq : (p - base).toNat - f.length = (p - (base + (f.length : Int))).toNat := by omega
        rw [heq]
        exact hbyte

lemma resolve_none :
    ∀ (files : List (List Nat)) (base p : Int) (i0 : Nat),
      base + (files.flatten.length : Int) ≤ p →
      findSeekAux (startsOf files base) (endsOf files base) p i0 = seekImpossible := by
  intro files
  induction files with
  | nil => intro base p i0 h; rfl
  | cons f fs ih =>
    intro base p i0 h
    rw [startsOf_cons, endsOf_cons]
    simp only [findSeekAux]
    rw [List.flatten_cons, List.length_append] at h
    push_cast at h
    rw [if_neg (fun hcond => by omega)]
    exact ih (base + (f.length : Int)) p (i0 + 1) (by omega)

lemma findSeekAux_ranges :
    ∀ (starts ends : List Int) (p : Int) (i0 j : Nat),
      findSeekAux starts ends p i0 = ((j : Nat) : Int) →
      i0 ≤ j ∧ j - i0 < starts.length ∧
      starts.getD (j - i0) 0 ≤ p ∧ p ≤ ends.getD (j - i0) 0 := by
  intro starts
  induction starts with
  | nil =>
    intro ends p i0 j h
    simp only [findSeekAux, seekImpossible] at h
    omega
  | cons st sts ih =>
    intro ends p i0 j h
    cases ends with
    | nil =>
      simp only [findSeekAux, seekImpossible] at h
      omega
    | cons en ens =>
      simp only [findSeekAux] at h
      by_cases hc : st ≤ p ∧ p ≤ en
      · rw [if_pos hc] at h
        have hij : i0 = j := by exact_mod_cast h
        subst hij
        refine ⟨le_refl i0, by simp, ?_, ?_⟩
        · rw [Nat.sub_self, List.getD_cons_zero]; exact hc.1
        · rw [Nat.sub_self, List.getD_cons_zero]; exact hc.2
      · rw [if_neg hc] at h
        obtain ⟨h1, h2, h3, h4⟩ := ih ens p (i0 + 1) j h
        have hji : j - i0 = (j - (i0 + 1)) + 1 := by omega
        refine ⟨by omega, by simp only [List.length_cons]; omega, ?_, ?_⟩
        · rw [hji, List.getD_cons_succ]; exact h3
        · rw [hji, List.getD_cons_succ]; exact h4

lemma startIdx_last :
    ∀ (files : List (List Nat)) (base : Int), files ≠ [] →
      startIdx files base (files.length - 1)
          + (((files.getD (files.length - 1) []).length : Nat) : Int)
        = base + (files.flatten.length : Int) := by
  intro files
  induction files with
  | nil => intro base h; exact absurd rfl h
  | cons f fs ih =>
    intro base _
    cases fs with
    | nil => simp [startIdx]
    | cons g gs =>
      have hlen : (f :: g :: gs).length - 1 = ((g :: gs).length - 1) + 1 := by
        simp only [List.length_cons]
        omega
      rw [hlen, List.getD_cons_succ]
      show startIdx (g :: gs) (base + (f.length : Int)) ((g :: gs).length - 1) + _ = _
      rw [ih (base + (f.length : Int)) (by simp)]
      simp only [List.flatten_cons, List.length_append]
      push_cast
      ring

lemma Open_WF :
    ∀ (files : List (List Nat)) (cf : ConcatFile),
      ConcatFile.Open files = .ok cf → WF cf files := by
  intro files cf h
  rw [ConcatFile.Open] at h
  by_cases hn : files.length = 0
  · rw [if_pos hn] at h
    exact absurd h (by simp)
  · rw [if_neg hn] at h
    have hne : files ≠ [] := fun he => hn (by rw [he]; rfl)
    have hcf := Except.ok.inj h
    subst hcf
    refine ⟨rfl, rfl, hne, rfl, by show 0 < files.length; omega, le_refl 0, rfl, rfl, ?_⟩
    show (endsOf files 0).getD (files.length - 1) 0 + 1 = (files.flatten.length : Int)
    rw [endsOf_getD files 0 (files.length - 1) (by omega)]
    have := startIdx_last files 0 hne
    omega
lemma goToNextFile_pos (cf : ConcatFile) (h : cf.current_file_num < cf.num_files - 1) :
    cf.goToNextFile =
      (true, { cf with current_file_num := cf.current_file_num + 1, fh_pos := 0 },
        [cf.current_file_num]) := by
  unfold ConcatFile.goToNextFile
  rw [if_pos h]

lemma goToNextFile_neg (cf : ConcatFile) (h : ¬ cf.current_file_num < cf.num_files - 1) :
    cf.goToNextFile = (false, cf, []) := by
  unfold ConcatFile.goToNextFile
  rw [if_neg h]

lemma Read_eq (cf cf1 : ConcatFile) (L n : Nat) (data : List Nat) (e : Option Err)
    (hopen : cf.currently_open = true)
    (hdata : fhRead (cf.files.getD cf.current_file_num []) cf.fh_pos L = data)
    (hn : data.length = n)
    (he : fhReadErr (cf.files.getD cf.current_file_num []) cf.fh_pos L = e)
    (hcf1 : ({ cf with super_pos := cf.super_pos + (n : Int),
                       fh_pos := cf.fh_pos + (n : Int) } : ConcatFile) = cf1) :
    cf.Read L =
      if n = L then ⟨data, e, cf1, []⟩
      else if cf1.goToNextFile.1 = true then
        ⟨data ++ (cf1.goToNextFile.2.1.Read (L - n)).data,
         (cf1.goToNextFile.2.1.Read (L - n)).err,
         (cf1.goToNextFile.2.1.Read (L - n)).state,
         cf1.goToNextFile.2.2 ++ (cf1.goToNextFile.2.1.Read (L - n)).closed⟩
      else if 0 < n then ⟨data, e, cf1, []⟩
      else ⟨data, some .eof, cf1, []⟩ := by
  subst hn hcf1 he hdata
  rw [ConcatFile.Read.eq_def, if_neg (by simp [hopen])]
  rfl

lemma read_spec :
    ∀ (k : Nat) (cf : ConcatFile) (contents : List (List Nat)) (L : Nat),
      WF cf contents → cf.num_files - cf.current_file_num ≤ k →
      (cf.Read L).data =
        (((contents.getD cf.current_file_num []).drop cf.fh_pos.toNat)
          ++ ((contents.drop (cf.current_file_num + 1)).flatten)).take L ∧
      ((((contents.getD cf.current_file_num []).drop cf.fh_pos.toNat)
          ++ ((contents.drop (cf.current_file_num + 1)).flatten)) = [] → 0 < L →
        (cf.Read L).err = some .eof) := by
  intro k
  induction k with
  | zero =>
    intro cf contents L hWF hk
    obtain ⟨_, _, _, hnum, hcur, _, _, _, _⟩ := hWF
    omega
  | succ k ih =>
    intro cf contents L hWF hk
    obtain ⟨hopen, hfiles, hne, hnum, hcur, hfh, hstart, hend, hsize⟩ := hWF
    obtain ⟨op, fls, nf, c, fp, sp, ss, sps, spe⟩ := cf
    dsimp only at hopen hfiles hnum hcur hfh hstart hend hsize hk ⊢
    subst hopen hfiles hnum hstart hend hsize
    have hdata : fhRead (fls.getD c []) fp L
        = ((fls.getD c []).drop fp.toNat).take L := by
      rw [fhRead, if_neg (not_lt.mpr hfh)]
    have hread := Read_eq
      ⟨true, fls, fls.length, c, fp, sp, (fls.flatten.length : Int),
        startsOf fls 0, endsOf fls 0⟩
      ⟨true, fls, fls.length, c,
        fp + ((((fls.getD c []).drop fp.toNat).take L).length : Int),
        sp + ((((fls.getD c []).drop fp.toNat).take L).length : Int),
        (fls.flatten.length : Int), startsOf fls 0, endsOf fls 0⟩
      L (((fls.getD c []).drop fp.toNat).take L).length
      (((fls.getD c []).drop fp.toNat).take L)
      (fhReadErr (fls.getD c []) fp L)
      rfl hdata rfl rfl rfl
    by_cases hnl : (((fls.getD c []).drop fp.toNat).take L).length = L
    · rw [hread, if_pos hnl]
      have hle : L ≤ ((fls.getD c []).drop fp.toNat).length := by
        rw [List.length_take] at hnl
        omega
      constructor
      · show ((fls.getD c []).drop fp.toNat).take L = _
        rw [List.take_append_of_le_length hle]
      · intro hav hL
        rcases List.append_eq_nil.mp hav with ⟨hA, _⟩
        rw [hA] at hle
        simp at hle
        omega
    · have hAlt : ((fls.getD c []).drop fp.toNat).length < L := by
        rw [List.length_take] at hnl
        omega
      have htake : ((fls.getD c []).drop fp.toNat).take L
          = (fls.getD c []).drop fp.toNat := List.take_of_length_le (le_of_lt hAlt)
      rw [hread, if_neg hnl, htake]
      by_cases hg : c < fls.length - 1
      · rw [goToNextFile_pos
          ⟨true, fls, fls.length, c,
            fp + (((fls.getD c []).drop fp.toNat).length : Int),
            sp + (((fls.getD c []).drop fp.toNat).length : Int),
            (fls.flatten.length : Int), startsOf fls 0, endsOf fls 0⟩ hg]
        dsimp only
        rw [if_pos rfl]
        have hc1 : c + 1 < fls.length := by omega
        obtain ⟨ihd, ihe⟩ := ih
          ⟨true, fls, fls.length, c + 1, 0,
            sp + (((fls.getD c []).drop fp.toNat).length : Int),
            (fls.flatten.length : Int), startsOf fls 0, endsOf fls 0⟩
          fls (L - ((fls.getD c []).drop fp.toNat).length)
          ⟨rfl, rfl, hne, rfl, by dsimp only; omega, by dsimp only; omega, rfl, rfl, rfl⟩
          (by dsimp only; omega)
        dsimp only at ihd ihe
        simp only [Int.toNat_zero, List.drop_zero] at ihd ihe
        constructor
        · rw [List.drop_eq_getElem_cons hc1, List.flatten_cons,
            List.take_append_eq_append_take, htake, ihd, List.getD_eq_getElem fls [] hc1]
        · intro hav hL
          rcases List.append_eq_nil.mp hav with ⟨hA, hR⟩
          apply ihe
          · rw [List.getD_eq_getElem fls [] hc1]
            have hR2 := hR
            rw [List.drop_eq_getElem_cons hc1, List.flatten_cons] at hR2
            exact hR2
          · rw [hA]
            simpa using hL
      · rw [goToNextFile_neg
          ⟨true, fls, fls.length, c,
            fp + (((fls.getD c []).drop fp.toNat).length : Int),
            sp + (((fls.getD c []).drop fp.toNat).length : Int),
            (fls.flatten.length : Int), startsOf fls 0, endsOf fls 0⟩ hg]
        dsimp only
        rw [if_neg (by simp)]
        have hdropnil : fls.drop (c + 1) = [] := by
          apply List.drop_eq_nil_of_le
          omega
        rw [hdropnil, List.flatten_nil, List.append_nil]
        constructor
        · rw [apply_ite ReadResult.data]
          dsimp only
          rw [ite_self]
          exact (List.take_of_length_le (le_of_lt hAlt)).symm
        · intro hav hL
          have hlen0 : ((fls.getD c []).drop fp.toNat).length = 0 := by rw [hav]; rfl
          rw [apply_ite ReadResult.err]
          dsimp only
          rw [if_neg (by omega)]

/-- C3: with the buffer spanning several sources, one Read call returns the
concatenation of the remaining bytes of the current file (from the handle
position) with the following files' bytes, in order, truncated to the
request (so the total equals the request whenever that many bytes remain);
and a Read that can obtain no byte at all, having no subsequent source,
reports end-of-stream (io.EOF). -/
theorem C3_read_crosses_boundaries (cf : ConcatFile) (contents : List (List Nat)) (L : Nat)
    (hWF : WF cf contents) :
    (cf.Read L).data =
      (((contents.getD cf.current_file_num []).drop cf.fh_pos.toNat)
        ++ ((contents.drop (cf.current_file_num + 1)).flatten)).take L ∧
    (L ≤ (((contents.getD cf.current_file_num []).drop cf.fh_pos.toNat)
        ++ ((contents.drop (cf.current_file_num + 1)).flatten)).length →
      ((cf.Read L).data).length = L) ∧
    ((((contents.getD cf.current_file_num []).drop cf.fh_pos.toNat)
        ++ ((contents.drop (cf.current_file_num + 1)).flatten)) = [] → 0 < L →
      (cf.Read L).err = some .eof) := by
  obtain ⟨hd, he⟩ := read_spec cf.num_files cf contents L hWF (by omega)
  refine ⟨hd, ?_, he⟩
  intro hle
  rw [hd, List.length_take]
  exact min_eq_left hle

/-- C3 witness: the two-file stream over 1 2 / 3 4 with the cursor at the
start; a 3-byte Read crosses the boundary and returns 1 2 3. -/
theorem C3_witness :
    WF cfC3w [[1, 2], [3, 4]] ∧
    (cfC3w.Read 3).data = [1, 2, 3] ∧
    ((cfC3w.Read 3).data).length = 3 := by
  have h := C3_read_crosses_boundaries cfC3w [[1, 2], [3, 4]] 3 (by decide)
  exact ⟨by decide, h.1.trans (by decide), h.2.1 (by decide)⟩
lemma startIdx_zero : ∀ (fs : List (List Nat)) (base : Int), startIdx fs base 0 = base := by
  intro fs base
  cases fs <;> rfl

lemma take_one_getD (l : List Nat) (k : Nat) (hk : k < l.length) :
    (l.drop k).take 1 = [l.getD k 0] := by
  rw [List.drop_eq_getElem_cons hk, List.getD_eq_getElem l 0 hk]
  rfl

lemma seekResolve_found (fls : List (List Nat)) (c : Nat) (fp sp p : Int) (j : Nat)
    (whence : Int) (hj : j < fls.length) (hs1 : startIdx fls 0 j ≤ p) :
    ConcatFile.seekResolve
        ⟨true, fls, fls.length, c, fp, sp, (fls.flatten.length : Int),
          startsOf fls 0, endsOf fls 0⟩ p ((j : Nat) : Int) whence
      = ⟨p, none,
          ⟨true, fls, fls.length, j, p - startIdx fls 0 j, p, (fls.flatten.length : Int),
            startsOf fls 0, endsOf fls 0⟩,
          if (j : Int) ≠ (c : Int) then [c] else []⟩ := by
  have hclamp : clampSeekIndex ((j : Nat) : Int) whence fls.length = ((j : Nat) : Int) := by
    unfold clampSeekIndex
    rw [if_neg (by simp only [seekImpossible]; omega)]
  unfold ConcatFile.seekResolve
  dsimp only
  rw [hclamp, Int.toNat_natCast]
  by_cases hjc : ((j : Nat) : Int) ≠ ((c : Nat) : Int)
  · rw [if_pos hjc, if_pos hjc]
    unfold ConcatFile.seekLocal
    dsimp only
    rw [startsOf_getD fls 0 j hj]
    rw [if_neg (by omega)]
  · rw [if_neg hjc, if_neg hjc]
    have hj2 : ((j : Nat) : Int) = ((c : Nat) : Int) := not_not.mp hjc
    have hcj : c = j := by omega
    subst hcj
    unfold ConcatFile.seekLocal
    dsimp only
    rw [startsOf_getD fls 0 c hj]
    rw [if_neg (by omega)]

/-- C2: for a well-formed stream and any logical position 0 <= p < totalSize,
Seek(p, start) succeeds, returns p, and an immediately following one-byte
Read yields exactly byte p of the concatenation of all sources. -/
theorem C2_seek_then_read_byte (cf : ConcatFile) (contents : List (List Nat)) (p : Int)
    (hWF : WF cf contents) (h0 : 0 ≤ p) (hp : p < cf.super_size) :
    (cf.Seek p WHENCE_ORIGIN).err = none ∧
    (cf.Seek p WHENCE_ORIGIN).ret = p ∧
    ((cf.Seek p WHENCE_ORIGIN).state.Read 1).data = [contents.flatten.getD p.toNat 0] := by
  obtain ⟨hopen, hfiles, hne, hnum, hcur, hfh, hstart, hend, hsize⟩ := hWF
  obtain ⟨op, fls, nf, c, fp, sp, ss, sps, spe⟩ := cf
  dsimp only at hopen hfiles hnum hcur hfh hstart hend hsize hp ⊢
  subst hopen hfiles hnum hstart hend hsize
  by_cases hp0 : p = 0
  · subst hp0
    have hlen : 0 < fls.length := List.length_pos.mpr hne
    have h := seekResolve_found fls c fp sp 0 0 WHENCE_ORIGIN hlen (by simp [startIdx_zero])
    rw [Nat.cast_zero, startIdx_zero, sub_zero] at h
    unfold ConcatFile.Seek
    rw [if_pos rfl]
    rw [if_pos rfl, h]
    refine ⟨rfl, rfl, ?_⟩
    obtain ⟨hd, _⟩ := read_spec fls.length
      ⟨true, fls, fls.length, 0, 0, 0, (fls.flatten.length : Int),
        startsOf fls 0, endsOf fls 0⟩ fls 1
      ⟨rfl, rfl, hne, rfl, by dsimp only; omega, by norm_num, rfl, rfl, rfl⟩
      (by dsimp only; omega)
    dsimp only at hd
    rw [hd]
    rcases fls with _ | ⟨f0, rest⟩
    · exact absurd rfl hne
    · have hflen : 0 < ((f0 :: rest).flatten).length := by
        have : (0 : Int) < ((f0 :: rest).flatten.length : Int) := hp
        omega
      have ht := take_one_getD ((f0 :: rest).flatten) 0 hflen
      rw [List.drop_zero] at ht
      simp only [Int.toNat_zero, List.drop_zero, List.getD_cons_zero, List.drop_succ_cons,
        List.drop_zero, List.flatten_cons] at ht ⊢
      exact ht
  · obtain ⟨j, hj, hfind, hs1, hs2, hlt, hbyte⟩ :=
      resolve_core fls 0 p 0 h0 (by omega)
    rw [Nat.zero_add] at hfind
    have h := seekResolve_found fls c fp sp p j WHENCE_ORIGIN hj hs1
    have hfsi : ConcatFile.findSeekIndex
        ⟨true, fls, fls.length, c, fp, sp, (fls.flatten.length : Int),
          startsOf fls 0, endsOf fls 0⟩ p = ((j : Nat) : Int) := by
      unfold ConcatFile.findSeekIndex
      dsimp only
      rw [if_neg (not_lt.mpr h0)]
      exact hfind
    unfold ConcatFile.Seek
    rw [if_pos rfl]
    rw [if_neg hp0, hfsi, h]
    refine ⟨rfl, rfl, ?_⟩
    obtain ⟨hd, _⟩ := read_spec fls.length
      ⟨true, fls, fls.length, j, p - startIdx fls 0 j, p, (fls.flatten.length : Int),
        startsOf fls 0, endsOf fls 0⟩ fls 1
      ⟨rfl, rfl, hne, rfl, by dsimp only; omega, by dsimp only; omega, rfl, rfl, rfl⟩
      (by dsimp only; omega)
    dsimp only at hd
    rw [hd, List.take_append_eq_append_take,
      take_one_getD (fls.getD j []) (p - startIdx fls 0 j).toNat hlt]
    have hlen1 : 1 - ((fls.getD j []).drop (p - startIdx fls 0 j).toNat).length = 0 := by
      rw [List.length_drop]
      omega
    rw [hlen1, List.take_zero, List.append_nil, hbyte, sub_zero]

/-- C5: for every well-formed stream, Seek(d, end) with d > 0 fails with the
invalid-argument error and leaves the stream (cursor included) unchanged;
and when totalSize >= 1, Seek(-1, end) succeeds and positions the cursor at
(and returns) totalSize - 1. -/
theorem C5_seek_end (cf : ConcatFile) (contents : List (List Nat)) (d : Int)
    (hWF : WF cf contents) :
    (0 < d → cf.Seek d WHENCE_END = ⟨cf.super_pos, some .invalidArgument, cf, []⟩) ∧
    (1 ≤ cf.super_size →
      (cf.Seek (-1) WHENCE_END).err = none ∧
      (cf.Seek (-1) WHENCE_END).ret = cf.super_size - 1 ∧
      (cf.Seek (-1) WHENCE_END).state.super_pos = cf.super_size - 1 ∧
      (cf.Seek (-1) WHENCE_END).state.currently_open = true) := by
  obtain ⟨hopen, hfiles, hne, hnum, hcur, hfh, hstart, hend, hsize⟩ := hWF
  obtain ⟨op, fls, nf, c, fp, sp, ss, sps, spe⟩ := cf
  dsimp only at hopen hfiles hnum hcur hfh hstart hend hsize ⊢
  subst hopen hfiles hnum hstart hend hsize
  constructor
  · intro hd
    unfold ConcatFile.Seek
    rw [if_neg (by decide), if_neg (by decide), if_pos rfl, if_pos hd]
  · intro hss
    have hlen1 : 1 ≤ (fls.flatten.length : Int) := hss
    have h0 : (0 : Int) ≤ (fls.flatten.length : Int) + -1 := by omega
    obtain ⟨j, hj, hfind, hs1, hs2, hlt, hbyte⟩ :=
      resolve_core fls 0 ((fls.flatten.length : Int) + -1) 0 h0 (by omega)
    rw [Nat.zero_add] at hfind
    have h := seekResolve_found fls c fp sp ((fls.flatten.length : Int) + -1) j
      WHENCE_END hj hs1
    have hfsi : ConcatFile.findSeekIndex
        ⟨true, fls, fls.length, c, fp, sp, (fls.flatten.length : Int),
          startsOf fls 0, endsOf fls 0⟩ ((fls.flatten.length : Int) + -1)
        = ((j : Nat) : Int) := by
      unfold ConcatFile.findSeekIndex
      dsimp only
      rw [if_neg (not_lt.mpr h0)]
      exact hfind
    unfold ConcatFile.Seek
    rw [if_neg (by decide), if_neg (by decide), if_pos rfl, if_neg (by decide), hfsi, h]
    refine ⟨rfl, by dsimp only; ring, by dsimp only; ring, rfl⟩

/-- C5 witness: the stream over files 7 / 8 9 (total size 3): Seek(1, end)
fails with the invalid-argument error leaving the stream untouched, and
Seek(-1, end) succeeds, returning position 2 = totalSize - 1. -/
theorem C5_witness :
    WF cfC5w [[7], [8, 9]] ∧ (0 : Int) < 1 ∧ 1 ≤ cfC5w.super_size ∧
    cfC5w.Seek 1 WHENCE_END = ⟨cfC5w.super_pos, some .invalidArgument, cfC5w, []⟩ ∧
    (cfC5w.Seek (-1) WHENCE_END).err = none ∧
    (cfC5w.Seek (-1) WHENCE_END).ret = cfC5w.super_size - 1 ∧
    (cfC5w.Seek (-1) WHENCE_END).state.super_pos = cfC5w.super_size - 1 := by
  have h := C5_seek_end cfC5w [[7], [8, 9]] 1 (by decide)
  exact ⟨by decide, by decide, by decide, h.1 (by decide), (h.2 (by decide)).1,
    (h.2 (by decide)).2.1, (h.2 (by decide)).2.2.1⟩

/-- C2 witness: the stream over files 10 20 / 30 at position 0: Seek(2,
start) then a one-byte Read returns byte 2 of the concatenation, the
value 30. -/
theorem C2_witness :
    WF cfC2w [[10, 20], [30]] ∧ (0 : Int) ≤ 2 ∧ (2 : Int) < cfC2w.super_size ∧
    (cfC2w.Seek 2 WHENCE_ORIGIN).err = none ∧
    (cfC2w.Seek 2 WHENCE_ORIGIN).ret = 2 ∧
    ((cfC2w.Seek 2 WHENCE_ORIGIN).state.Read 1).data
      = [[[10, 20], [30]].flatten.getD (2 : Int).toNat 0] := by
  have h := C2_seek_then_read_byte cfC2w [[10, 20], [30]] 2 (by decide) (by decide) (by decide)
  exact ⟨by decide, by decide, by decide, h.1, h.2.1, h.2.2⟩

/-- C6 (amended): whenever a Seek candidate position lies outside every
source's range (negative, or at/after totalSize), position resolution
reports no source, and the clamp chooses the replacement index from the
seek origin alone: origin end clamps to the first source, origins start and
current clamp to the last source, regardless of which side the candidate
fell out on. -/
theorem C6_clamp_by_whence (cf : ConcatFile) (contents : List (List Nat)) (candidate : Int)
    (hWF : WF cf contents) (hout : candidate < 0 ∨ cf.super_size ≤ candidate) :
    cf.findSeekIndex candidate = seekImpossible ∧
    clampSeekIndex (cf.findSeekIndex candidate) WHENCE_END cf.num_files = 0 ∧
    clampSeekIndex (cf.findSeekIndex candidate) WHENCE_ORIGIN cf.num_files
      = (cf.num_files : Int) - 1 ∧
    clampSeekIndex (cf.findSeekIndex candidate) WHENCE_CURRENT cf.num_files
      = (cf.num_files : Int) - 1 := by
  obtain ⟨hopen, hfiles, hne, hnum, hcur, hfh, hstart, hend, hsize⟩ := hWF
  have h1 : cf.findSeekIndex candidate = seekImpossible := by
    unfold ConcatFile.findSeekIndex
    rcases hout with hneg | hbig
    · rw [if_pos hneg]
    · rw [hsize] at hbig
      rw [if_neg (by omega), hstart, hend]
      exact resolve_none contents 0 candidate 0 (by omega)
  refine ⟨h1, ?_, ?_, ?_⟩
  · rw [h1]
    unfold clampSeekIndex
    rw [if_pos rfl, if_pos rfl]
  · rw [h1]
    unfold clampSeekIndex
    rw [if_pos rfl, if_neg (by decide)]
  · rw [h1]
    unfold clampSeekIndex
    rw [if_pos rfl, if_neg (by decide)]

/-- C6 witness: the stream over files 4 5 / 6 (total size 3) with the
out-of-range candidate 100. -/
theorem C6_witness :
    WF cfC6w [[4, 5], [6]] ∧ ((100 : Int) < 0 ∨ cfC6w.super_size ≤ 100) ∧
    cfC6w.findSeekIndex 100 = seekImpossible ∧
    clampSeekIndex (cfC6w.findSeekIndex 100) WHENCE_END cfC6w.num_files = 0 ∧
    clampSeekIndex (cfC6w.findSeekIndex 100) WHENCE_ORIGIN cfC6w.num_files
      = (cfC6w.num_files : Int) - 1 ∧
    clampSeekIndex (cfC6w.findSeekIndex 100) WHENCE_CURRENT cfC6w.num_files
      = (cfC6w.num_files : Int) - 1 := by
  have h := C6_clamp_by_whence cfC6w [[4, 5], [6]] 100 (by decide) (by decide)
  exact ⟨by decide, by decide, h.1, h.2.1, h.2.2.1, h.2.2.2⟩

/-- C9 (amended): in the boundary table ConcatFile.Open builds, a source of
length 0 has its end offset exactly one below its start offset (an empty,
inverted range, not coinciding offsets), and position resolution never
returns that source's index. -/
theorem C9_zero_length_source (contents : List (List Nat)) (cf : ConcatFile) (i : Nat) (p : Int)
    (hOp : ConcatFile.Open contents = .ok cf) (hi : i < cf.num_files)
    (hz : (cf.files.getD i []).length = 0) :
    cf.super_pos_end.getD i 0 + 1 = cf.super_pos_start.getD i 0 ∧
    cf.findSeekIndex p ≠ (i : Int) := by
  obtain ⟨_, hfiles, hne, hnum, _, _, hstart, hend, hsize⟩ := Open_WF contents cf hOp
  rw [hfiles] at hz
  have hi2 : i < contents.length := by omega
  constructor
  · rw [hstart, hend, startsOf_getD contents 0 i hi2, endsOf_getD contents 0 i hi2, hz]
    push_cast
    ring
  · intro hcontra
    unfold ConcatFile.findSeekIndex at hcontra
    by_cases hneg : p < 0
    · rw [if_pos hneg] at hcontra
      simp only [seekImpossible] at hcontra
      omega
    · rw [if_neg hneg, hstart, hend] at hcontra
      obtain ⟨hb1, hb2, hb3, hb4⟩ :=
        findSeekAux_ranges (startsOf contents 0) (endsOf contents 0) p 0 i hcontra
      rw [Nat.sub_zero] at hb3 hb4
      rw [startsOf_getD contents 0 i hi2] at hb3
      rw [endsOf_getD contents 0 i hi2, hz] at hb4
      push_cast at hb4
      omega

/-- C9 witness: files 1 / (empty) / 2 3; source 1 has length 0, its start
offset is 1 and end offset 0, and resolving position 1 never yields index 1. -/
theorem C9_witness :
    ConcatFile.Open [[1], [], [2, 3]] = .ok cfC9w ∧ 1 < cfC9w.num_files ∧
    (cfC9w.files.getD 1 []).length = 0 ∧
    cfC9w.super_pos_end.getD 1 0 + 1 = cfC9w.super_pos_start.getD 1 0 ∧
    cfC9w.findSeekIndex 1 ≠ (1 : Int) := by
  have h := C9_zero_length_source [[1], [], [2, 3]] cfC9w 1 1 rfl (by decide) (by decide)
  exact ⟨rfl, by decide, by decide, h.1, h.2⟩

/-- C7 counterexample: on the stream over files 1 2 / 3 4 positioned at the
start, the single boundary-crossing Read of 3 bytes returns 1 2 3 and closes
the exhausted file 0 during the call (the closed-handles log is [0], not
empty), refuting that sources are never closed during a boundary-crossing
Read. -/
theorem C7_counterexample :
    (cfC7x.Read 3).data = [1, 2, 3] ∧ (cfC7x.Read 3).closed = [0] := by
  have h2 := Read_eq ⟨true, [[1, 2], [3, 4]], 2, 1, 0, 2, 4, [0, 2], [1, 3]⟩
      ⟨true, [[1, 2], [3, 4]], 2, 1, 1, 3, 4, [0, 2], [1, 3]⟩ 1 1 [3] none
      rfl (by decide) rfl (by decide) (by decide)
  rw [if_pos rfl] at h2
  have h1 := Read_eq cfC7x ⟨true, [[1, 2], [3, 4]], 2, 0, 2, 2, 4, [0, 2], [1, 3]⟩ 3 2
      [1, 2] none rfl (by decide) rfl (by decide) (by decide)
  rw [if_neg (by decide)] at h1
  rw [goToNextFile_pos ⟨true, [[1, 2], [3, 4]], 2, 0, 2, 2, 4, [0, 2], [1, 3]⟩ (by decide)] at h1
  norm_num at h1
  rw [h2] at h1
  rw [h1]
  exact ⟨rfl, rfl⟩
